import Mathlib

/- Shallow embedding of the rental calendar reconciliation engine
   (src/sync.py, src/backend/manual_editor.py, src/backend/sync.py).

   Conventions of the embedding:
   - Python dates are embedded as proleptic-Gregorian epoch-day integers
     (days since 1970-01-01); date ordering and timedelta arithmetic on
     dates become integer ordering and addition.
   - Python dicts keyed by isoformat date strings are embedded as
     association lists keyed by the epoch day (isoformat is injective on
     dates, and all verified claims observe the maps only through lookup
     and key membership; a write is modelled by prepending, so the most
     recent write shadows older entries exactly as a dict update does).
   - Fallible operations return Option; a raised-and-caught exception is
     the none branch.
   - The icalendar property wrappers (the dot-dt unwrapping in to_date)
     are not modelled: by the time values reach the embedded functions the
     callers have already unwrapped them, so DtObj carries the unwrapped
     value. String operations are implemented over character lists so
     that every definition evaluates inside the kernel. -/

namespace RCS

/-- Leap year test of the proleptic Gregorian calendar, as in Python
datetime. -/
def isLeap (y : Int) : Bool :=
  (y % 4 == 0 && y % 100 != 0) || y % 400 == 0

/-- Number of days of month m in year y, as in Python datetime. -/
def daysInMonth (y m : Int) : Int :=
  if m = 2 then (if isLeap y then 29 else 28)
  else if m = 4 ∨ m = 6 ∨ m = 9 ∨ m = 11 then 30
  else 31

/-- Conversion from a civil date to its epoch-day number (days since
1970-01-01), the standard floor-division algorithm; embeds the ordering
and day-arithmetic semantics of Python datetime.date. -/
def daysFromCivil (y m d : Int) : Int :=
  let yy := if m ≤ 2 then y - 1 else y
  let era := Int.ediv yy 400
  let yoe := yy - era * 400
  let mp := Int.emod (m + 9) 12
  let doy := Int.ediv (153 * mp + 2) 5 + d - 1
  let doe := yoe * 365 + Int.ediv yoe 4 - Int.ediv yoe 100 + doy
  era * 146097 + doe - 719468

/-- Inverse of daysFromCivil: the civil date (year, month, day) of an
epoch-day number. -/
def civilFromDays (z0 : Int) : Int × Int × Int :=
  let z := z0 + 719468
  let era := Int.ediv z 146097
  let doe := z - era * 146097
  let yoe := Int.ediv (doe - Int.ediv doe 1460 + Int.ediv doe 36524 - Int.ediv doe 146096) 365
  let y := yoe + era * 400
  let doy := doe - (365 * yoe + Int.ediv yoe 4 - Int.ediv yoe 100)
  let mp := Int.ediv (5 * doy + 2) 153
  let d := doy - Int.ediv (153 * mp + 2) 5 + 1
  let m := mp + (if mp < 10 then 3 else -9)
  (if m ≤ 2 then y + 1 else y, m, d)

/-- Decimal digits of a nonnegative integer, zero padded on the left to
width w (the zero padding of isoformat). -/
def padNum (w : Nat) (n : Int) : List Char :=
  let digits := (toString n.toNat).data
  List.replicate (w - digits.length) '0' ++ digits

/-- The isoformat rendering YYYY-MM-DD of an epoch day, as produced by
date.isoformat in the emitted summaries and descriptions. -/
def isoDateStr (z : Int) : String :=
  let c := civilFromDays z
  String.mk (padNum 4 c.1 ++ '-' :: padNum 2 c.2.1 ++ '-' :: padNum 2 c.2.2)

/-- Uppercase of a string (Python str.upper on the ASCII data used here),
implemented over the character list so it evaluates in the kernel. -/
def strUpper (s : String) : String :=
  String.mk (s.data.map Char.toUpper)

/-- Lowercase of a string (Python str.lower). -/
def strLower (s : String) : String :=
  String.mk (s.data.map Char.toLower)

/-- Whitespace test for the trim operation (Python str.strip default). -/
def isWs (c : Char) : Bool :=
  c = ' ' || c = '\t' || c = '\n' || c = '\r'

/-- Python str.strip: drop whitespace at both ends. -/
def strTrim (s : String) : String :=
  String.mk (((s.data.dropWhile isWs).reverse.dropWhile isWs).reverse)

/-- Test whether the list pat occurs at the head of the list cs. -/
def headMatches : List Char → List Char → Bool
  | _, [] => true
  | [], _ :: _ => false
  | c :: cs, p :: ps => c = p && headMatches cs ps

/-- Substring occurrence test over character lists. -/
def listHasSub (pat : List Char) : List Char → Bool
  | [] => pat.isEmpty
  | c :: cs => headMatches (c :: cs) pat || listHasSub pat cs

/-- Python substring containment pat in hay. -/
def hasSub (hay pat : String) : Bool :=
  listHasSub pat.data hay.data

/-- Numeric value of a list of decimal digit characters. -/
def digitsToNat (cs : List Char) : Nat :=
  cs.foldl (fun a c => a * 10 + (c.toNat - 48)) 0

/-- All characters are decimal digits (str.isdigit on ASCII data). -/
def allDigits (cs : List Char) : Bool :=
  cs.all Char.isDigit

/-- Build a date from civil components, validating them exactly as the
datetime constructor behind strptime and fromisoformat does: year in
1..9999, month in 1..12, day within the month. -/
def mkValidDate (y m d : Int) : Option Int :=
  if 1 ≤ y ∧ y ≤ 9999 ∧ 1 ≤ m ∧ m ≤ 12 ∧ 1 ≤ d ∧ d ≤ daysInMonth y m then
    some (daysFromCivil y m d)
  else
    none

/-- Parse of an 8 character digit string as YYYYMMDD, the
strptime percent-Y percent-m percent-d branch of to_date (the caller has
already checked length 8 and all digits). -/
def parseYmd8 (cs : List Char) : Option Int :=
  mkValidDate (digitsToNat (cs.take 4) : Nat) (digitsToNat ((cs.drop 4).take 2) : Nat)
    (digitsToNat (cs.drop 6) : Nat)

/-- Parse of a dashed date string via strptime with format
percent-Y dash percent-m dash percent-d: each field is one to four
(year) or one to two (month, day) digits, then the built date is
validated. The caller has already checked length 10 and exactly two
dashes. -/
def parseYmdDashed (cs : List Char) : Option Int :=
  match cs.splitOn '-' with
  | [ys, ms, ds] =>
      if 1 ≤ ys.length ∧ ys.length ≤ 4 ∧ allDigits ys
         ∧ 1 ≤ ms.length ∧ ms.length ≤ 2 ∧ allDigits ms
         ∧ 1 ≤ ds.length ∧ ds.length ≤ 2 ∧ allDigits ds then
        mkValidDate (digitsToNat ys : Nat) (digitsToNat ms : Nat) (digitsToNat ds : Nat)
      else
        none
  | _ => none

/-- A Python value reaching to_date or to_datetime: None, a date, a
datetime (only its date part is ever observed downstream), or a string. -/
inductive DtObj where
  | pynone
  | pydate (d : Int)
  | pydatetime (d : Int)
  | pystr (s : String)
deriving DecidableEq

/-- Embedding of sync.to_date: converts any of the supported inputs to a
date, returning none for None, for strings failing the two recognized
formats (8 digit YYYYMMDD, 10 character dashed) and for strings whose
digits do not form a valid calendar date. -/
def to_date : DtObj → Option Int
  | .pynone => none
  | .pydate d => some d
  | .pydatetime d => some d
  | .pystr s =>
      let cs := (strTrim s).data
      if cs.length = 8 ∧ allDigits cs then parseYmd8 cs
      else if cs.length = 10 ∧ (cs.filter (fun c => c = '-')).length = 2 then parseYmdDashed cs
      else none

/-- Embedding of sync.to_datetime: a date or datetime converts to a (UTC)
datetime, whose date part is the same day; None and strings convert to
none (to_datetime does not parse strings). Only the date part is observed
downstream, so the result is the epoch day. -/
def to_datetime : DtObj → Option Int
  | .pynone => none
  | .pydate d => some d
  | .pydatetime d => some d
  | .pystr _ => none

/-- Embedding of sync.normalize_uid: strip and lowercase (the empty
string guard of the source is absorbed, trim and lowercase of the empty
string are the empty string). -/
def normalize_uid (u : String) : String :=
  strLower (strTrim u)

/-- Collapse every run of two or more spaces to a single space: the fixed
point of the replace-two-spaces-by-one loop in clean_description. -/
def squeezeSpaces : List Char → List Char
  | [] => []
  | [c] => [c]
  | c1 :: c2 :: cs =>
      if c1 = ' ' && c2 = ' ' then squeezeSpaces (c2 :: cs)
      else c1 :: squeezeSpaces (c2 :: cs)

/-- Replace every occurrence of the character c by the character r. -/
def replaceChar (c r : Char) (cs : List Char) : List Char :=
  cs.map (fun x => if x = c then r else x)

/-- Embedding of sync.clean_description: newlines (and carriage returns,
which in the source are removed as part of the CRLF pair and otherwise
survive into the whitespace strip) become spaces, runs of spaces
collapse, and the result is stripped. On the newline-free ASCII inputs
produced by the emitters this agrees character for character with the
source. -/
def clean_description (t : String) : String :=
  if t = "" then ""
  else strTrim (String.mk (squeezeSpaces (replaceChar '\n' ' ' (replaceChar '\r' ' ' t.data))))

/-- One night entry of a night map, the per-date dict written by
convert_events_to_nights. -/
structure NightEvent where
  category : String
  description : String
  uid : String
deriving DecidableEq

/-- A parsed calendar VEVENT component as walked by the pipeline: the
fields the source reads off an icalendar component. A missing CATEGORIES
property is none (the property object is truthy exactly when present). -/
structure RawVComponent where
  isVevent : Bool := true
  uid : String := ""
  summary : String := ""
  dtstart : DtObj := .pynone
  dtend : DtObj := .pynone
  description : String := ""
  location : String := ""
  categories : Option String := none
deriving DecidableEq

/-- An event dict as built by extract_events or by the ICS reader and
consumed by the sync pipeline. The component field carries the original
parsed VEVENT when present (extract_events keeps it for re-emission);
fields absent from a given producer default to the Python dict.get
defaults used by the consumers. -/
structure SyncEvent where
  source : String := ""
  uid : String := ""
  summary : String := ""
  dtstart : DtObj := .pynone
  dtend : DtObj := .pynone
  description : String := ""
  location : String := ""
  categories : Option String := none
  already_processed : Bool := false
  component : Option RawVComponent := none
deriving DecidableEq

/-- Lookup in an association-list map: the first entry wins, which under
prepend-on-write is the most recent write, exactly the visible behavior
of a Python dict. -/
def mget {α : Type} : List (Int × α) → Int → Option α
  | [], _ => none
  | (k, v) :: m, d => if k = d then some v else mget m d

/-- Write to an association-list map (dict item assignment): prepend, so
the new entry shadows any older entry for the same key. -/
def mset {α : Type} (m : List (Int × α)) (k : Int) (v : α) : List (Int × α) :=
  (k, v) :: m

/-- The dates of the half-open interval from s (inclusive) to e
(exclusive): the while-current-less-than-end loop over dates. Empty when
e is not greater than s. -/
def datesBetween (s e : Int) : List Int :=
  (List.range (e - s).toNat).map (fun (i : Nat) => s + (i : Int))

/-- A night map: isoformat date string to night dict, keyed here by epoch
day. -/
abbrev NightMap : Type := List (Int × NightEvent)

/-- The night dict written for an event by convert_events_to_nights,
with the dict.get default UNKNOWN for a missing categories key. -/
def eventNight (ev : SyncEvent) : NightEvent :=
  { category := ev.categories.getD "UNKNOWN"
    description := ev.description
    uid := ev.uid }

/-- The loop body of convert_events_to_nights for one event: when both
dates convert, write the night dict of the event over every date of the
half-open span; otherwise skip the event. -/
def convertStep (m : NightMap) (ev : SyncEvent) : NightMap :=
  match to_date ev.dtstart, to_date ev.dtend with
  | some s, some e => (datesBetween s e).foldl (fun m2 d => mset m2 d (eventNight ev)) m
  | _, _ => m

/-- Embedding of sync.convert_events_to_nights: each event whose start
and end both convert to dates writes its night dict over every date of
its half-open span, later events overwriting earlier ones; events with a
missing or unparsable date are skipped. -/
def convert_events_to_nights (events : List SyncEvent) : NightMap :=
  events.foldl convertStep []

/-- Decision structure of the overlay loop body: given the category of
the import night at the date (none when the date is absent from the import
map) and the category of the manual night, does the loop write
the manual event over the final map? Mirrors the branch structure of
apply_night_overlay_rules: an import RESERVATION is never overwritten;
MANUAL-REMOVE always writes otherwise; MANUAL-BLOCK writes only over an
absent or AVAILABLE import night; any other manual category writes. -/
def overlayWrites (icat : Option String) (mcat : String) : Bool :=
  if icat = some "RESERVATION" then false
  else if mcat = "MANUAL-REMOVE" then true
  else if mcat = "MANUAL-BLOCK" then icat = none || icat = some "AVAILABLE"
  else true

/-- One iteration of the overlay loop: the import lookup is always
against the original import map, and a write stores the manual event. -/
def overlayStep (imp : NightMap) (acc : NightMap) (p : Int × NightEvent) : NightMap :=
  if overlayWrites ((mget imp p.1).map NightEvent.category) p.2.category then
    mset acc p.1 p.2
  else
    acc

/-- The value the overlay leaves at a date, as a function of the import
night there and the manual night covering it. -/
def overlayResult (ie : Option NightEvent) (me : NightEvent) : Option NightEvent :=
  if overlayWrites (ie.map NightEvent.category) me.category then some me else ie

/-- The item list of a dict modelled as an association list: one entry
per distinct key, carrying the live (first-match) value. The seen
accumulator holds keys already emitted. -/
def entriesAux {α : Type} : List Int → List (Int × α) → List (Int × α)
  | _, [] => []
  | seen, p :: m =>
      if p.1 ∈ seen then entriesAux seen m
      else p :: entriesAux (p.1 :: seen) m

/-- Embedding of sync.apply_night_overlay_rules: start from a copy of the import
map and fold the overlay loop body over the items of the manual
map. -/
def apply_night_overlay_rules (imp man : NightMap) : NightMap :=
  (entriesAux [] man).foldl (overlayStep imp) imp

theorem mget_mset {α : Type} (m : List (Int × α)) (k : Int) (v : α) (d : Int) :
    mget (mset m k v) d = if k = d then some v else mget m d := rfl

theorem mget_entriesAux {α : Type} (m : List (Int × α)) (seen : List Int) (d : Int) :
    mget (entriesAux seen m) d = if d ∈ seen then none else mget m d := by
  induction m generalizing seen with
  | nil => simp [entriesAux, mget]
  | cons p m ih =>
      obtain ⟨k, v⟩ := p
      by_cases hmem : k ∈ seen
      · rw [entriesAux, if_pos hmem, ih]
        by_cases hd : d ∈ seen
        · simp [hd]
        · have hne : k ≠ d := fun h => hd (h ▸ hmem)
          simp [hd, mget, hne]
      · rw [entriesAux, if_neg hmem]
        by_cases hkd : k = d
        · subst hkd
          simp [mget, hmem]
        · rw [mget, if_neg hkd, ih]
          by_cases hd : d ∈ seen
          · have : d ∈ k :: seen := List.mem_cons_of_mem _ hd
            simp [hd, this]
          · have hthis : d ∉ k :: seen := by
              intro hmem2
              rcases List.mem_cons.mp hmem2 with h1 | h1
              · exact hkd h1.symm
              · exact hd h1
            rw [if_neg hthis, if_neg hd, mget, if_neg hkd]

theorem entriesAux_keys_nodup {α : Type} (m : List (Int × α)) (seen : List Int) :
    ((entriesAux seen m).map Prod.fst).Nodup
      ∧ ∀ k ∈ (entriesAux seen m).map Prod.fst, k ∉ seen := by
  induction m generalizing seen with
  | nil => simp [entriesAux]
  | cons p m ih =>
      by_cases hmem : p.1 ∈ seen
      · rw [entriesAux, if_pos hmem]
        exact ih seen
      · rw [entriesAux, if_neg hmem]
        obtain ⟨hnd, hout⟩ := ih (p.1 :: seen)
        refine ⟨?_, ?_⟩
        · simp only [List.map_cons, List.nodup_cons]
          exact ⟨fun h => (hout _ h) (List.mem_cons_self _ _), hnd⟩
        · intro k hk
          simp only [List.map_cons, List.mem_cons] at hk
          rcases hk with hk | hk
          · exact hk ▸ hmem
          · exact fun hs => (hout k hk) (List.mem_cons_of_mem _ hs)

theorem mget_overlayStep_ne (imp acc : NightMap) (p : Int × NightEvent) (d : Int)
    (h : p.1 ≠ d) : mget (overlayStep imp acc p) d = mget acc d := by
  rw [overlayStep]
  split
  · rw [mget_mset, if_neg h]
  · rfl

theorem mget_foldl_overlay_not_mem (imp : NightMap) (L : List (Int × NightEvent))
    (acc : NightMap) (d : Int) (h : ∀ p ∈ L, p.1 ≠ d) :
    mget (L.foldl (overlayStep imp) acc) d = mget acc d := by
  induction L generalizing acc with
  | nil => rfl
  | cons p L ih =>
      rw [List.foldl_cons, ih _ (fun q hq => h q (List.mem_cons_of_mem _ hq)),
        mget_overlayStep_ne _ _ _ _ (h p (List.mem_cons_self _ _))]

theorem mget_eq_none_forall {α : Type} (m : List (Int × α)) (d : Int)
    (h : mget m d = none) : ∀ p ∈ m, p.1 ≠ d := by
  induction m with
  | nil => intro p hp; cases hp
  | cons q m ih =>
      obtain ⟨k, v⟩ := q
      intro p hp
      rw [mget] at h
      by_cases hkd : k = d
      · rw [if_pos hkd] at h; cases h
      · rw [if_neg hkd] at h
        rcases List.mem_cons.mp hp with hq | hq
        · rw [hq]; exact hkd
        · exact ih h p hq

theorem mget_foldl_overlay_some (imp : NightMap) (L : List (Int × NightEvent))
    (acc : NightMap) (d : Int) (me : NightEvent) (hnd : (L.map Prod.fst).Nodup)
    (hacc : mget acc d = mget imp d) (hL : mget L d = some me) :
    mget (L.foldl (overlayStep imp) acc) d = overlayResult (mget imp d) me := by
  induction L generalizing acc with
  | nil => cases hL
  | cons p L ih =>
      obtain ⟨k, v⟩ := p
      simp only [List.map_cons, List.nodup_cons] at hnd
      by_cases hkd : k = d
      · subst hkd
        rw [mget, if_pos rfl] at hL
        injection hL with hv
        subst hv
        have hnot : ∀ q ∈ L, q.1 ≠ k := by
          intro q hq h
          exact hnd.1 (h ▸ List.mem_map_of_mem Prod.fst hq)
        rw [List.foldl_cons, mget_foldl_overlay_not_mem _ _ _ _ hnot]
        cases hw : overlayWrites ((mget imp k).map NightEvent.category) v.category with
        | true => simp [overlayStep, overlayResult, hw, mget_mset]
        | false => simp [overlayStep, overlayResult, hw, hacc]
      · rw [mget, if_neg hkd] at hL
        rw [List.foldl_cons]
        have hstep : mget (overlayStep imp acc (k, v)) d = mget imp d := by
          rw [mget_overlayStep_ne _ _ _ _ hkd]
          exact hacc
        exact ih _ hnd.2 hstep hL

/-- Frame half of the overlay characterization: a date with no manual
night keeps exactly its import lookup. -/
theorem mget_overlay_none (imp man : NightMap) (d : Int)
    (h : mget man d = none) :
    mget (apply_night_overlay_rules imp man) d = mget imp d := by
  rw [apply_night_overlay_rules]
  apply mget_foldl_overlay_not_mem
  intro p hp
  have hm : mget (entriesAux ([] : List Int) man) d = none := by
    rw [mget_entriesAux]
    simpa using h
  exact mget_eq_none_forall _ _ hm p hp

/-- Covered half of the overlay characterization: at a date with a manual
night me, the final map holds the branch result of the overlay rules
applied to the import night and me. -/
theorem mget_overlay_some (imp man : NightMap) (d : Int) (me : NightEvent)
    (h : mget man d = some me) :
    mget (apply_night_overlay_rules imp man) d = overlayResult (mget imp d) me := by
  rw [apply_night_overlay_rules]
  apply mget_foldl_overlay_some imp _ imp d me (entriesAux_keys_nodup man []).1 rfl
  rw [mget_entriesAux]
  simpa using h

/-- The grouping key of deduplicate_events: converted start date,
converted end date, and the summary, compared exactly. -/
def dedupKey (e : SyncEvent) : Option Int × Option Int × String :=
  (to_date e.dtstart, to_date e.dtend, e.summary)

/-- Python max with a key function over a nonempty group, scanning left
to right and replacing the current best only on a strictly larger key:
the first maximum wins ties. -/
def pickBestFold (a : SyncEvent) (l : List SyncEvent) : SyncEvent :=
  l.foldl (fun b x => if b.description.length < x.description.length then x else b) a

/-- The representative of a group: none only for the empty group, which
the groups dict never contains. -/
def pickBest : List SyncEvent → Option SyncEvent
  | [] => none
  | e :: l => some (pickBestFold e l)

/-- Keys of the groups dict in first-occurrence order; seen holds keys
already emitted. -/
def groupKeysAux :
    List (Option Int × Option Int × String) → List SyncEvent →
      List (Option Int × Option Int × String)
  | _, [] => []
  | seen, e :: l =>
      if dedupKey e ∈ seen then groupKeysAux seen l
      else dedupKey e :: groupKeysAux (dedupKey e :: seen) l

/-- Embedding of deduplicate_events (the function is identical in
src/sync.py and src/backend/sync.py): group the events by key and keep,
per group, the event with the longest description, the first occurrence
winning ties. The insertion-ordered groups dict is embedded as the list
of distinct keys in first-occurrence order paired with, per key, the
subsequence of events carrying that key in input order. -/
def deduplicate_events (events : List SyncEvent) : List SyncEvent :=
  if events.isEmpty then []
  else
    (groupKeysAux [] events).filterMap
      (fun k => pickBest (events.filter (fun e => decide (dedupKey e = k))))

theorem mem_groupKeysAux (l : List SyncEvent)
    (seen : List (Option Int × Option Int × String))
    (k : Option Int × Option Int × String) :
    k ∈ groupKeysAux seen l ↔ k ∉ seen ∧ ∃ e ∈ l, dedupKey e = k := by
  induction l generalizing seen with
  | nil => simp [groupKeysAux]
  | cons e l ih =>
      by_cases hmem : dedupKey e ∈ seen
      · rw [groupKeysAux, if_pos hmem, ih]
        constructor
        · rintro ⟨hns, x, hx, hkx⟩
          exact ⟨hns, x, List.mem_cons_of_mem _ hx, hkx⟩
        · rintro ⟨hns, x, hx, hkx⟩
          rcases List.mem_cons.mp hx with hx | hx
          · exact absurd (hkx ▸ hx ▸ hmem) hns
          · exact ⟨hns, x, hx, hkx⟩
      · rw [groupKeysAux, if_neg hmem]
        constructor
        · intro hk
          rcases List.mem_cons.mp hk with hk | hk
          · exact ⟨hk ▸ hmem, e, List.mem_cons_self _ _, hk.symm⟩
          · obtain ⟨hns, x, hx, hkx⟩ := (ih _).mp hk
            refine ⟨fun hs => hns (List.mem_cons_of_mem _ hs), x, List.mem_cons_of_mem _ hx, hkx⟩
        · rintro ⟨hns, x, hx, hkx⟩
          rcases List.mem_cons.mp hx with hx | hx
          · exact hkx ▸ hx ▸ List.mem_cons_self _ _
          · by_cases hke : k = dedupKey e
            · exact hke ▸ List.mem_cons_self _ _
            · refine List.mem_cons_of_mem _ ((ih _).mpr ⟨?_, x, hx, hkx⟩)
              intro hs
              rcases List.mem_cons.mp hs with hs | hs
              · exact hke hs
              · exact hns hs

theorem groupKeysAux_nodup (l : List SyncEvent)
    (seen : List (Option Int × Option Int × String)) :
    (groupKeysAux seen l).Nodup ∧ ∀ k ∈ groupKeysAux seen l, k ∉ seen := by
  induction l generalizing seen with
  | nil => simp [groupKeysAux]
  | cons e l ih =>
      by_cases hmem : dedupKey e ∈ seen
      · rw [groupKeysAux, if_pos hmem]
        exact ih seen
      · rw [groupKeysAux, if_neg hmem]
        obtain ⟨hnd, hout⟩ := ih (dedupKey e :: seen)
        refine ⟨List.nodup_cons.mpr ⟨fun h => (hout _ h) (List.mem_cons_self _ _), hnd⟩, ?_⟩
        intro k hk
        rcases List.mem_cons.mp hk with hk | hk
        · exact hk ▸ hmem
        · exact fun hs => (hout k hk) (List.mem_cons_of_mem _ hs)

theorem pickBestFold_split (a : SyncEvent) (l : List SyncEvent) :
    ∃ l1 l2, a :: l = l1 ++ pickBestFold a l :: l2
      ∧ (∀ x ∈ l1, x.description.length < (pickBestFold a l).description.length)
      ∧ ∀ x ∈ a :: l, x.description.length ≤ (pickBestFold a l).description.length := by
  induction l generalizing a with
  | nil =>
      refine ⟨[], [], rfl, ?_, ?_⟩
      · intro x hx; cases hx
      · intro x hx
        rcases List.mem_cons.mp hx with hx | hx
        · rw [hx]; exact Nat.le_refl _
        · cases hx
  | cons x l ih =>
      by_cases h : a.description.length < x.description.length
      · have hfold : pickBestFold a (x :: l) = pickBestFold x l := by
          rw [pickBestFold, List.foldl_cons, if_pos h]; rfl
        obtain ⟨l1, l2, heq, hlt, hle⟩ := ih x
        refine ⟨a :: l1, l2, ?_, ?_, ?_⟩
        · rw [hfold, List.cons_append, ← heq]
        · intro y hy
          rw [hfold]
          rcases List.mem_cons.mp hy with hy | hy
          · exact hy ▸ Nat.lt_of_lt_of_le h (hle x (List.mem_cons_self _ _))
          · exact hlt y hy
        · intro y hy
          rw [hfold]
          rcases List.mem_cons.mp hy with hy | hy
          · exact hy ▸ Nat.le_of_lt (Nat.lt_of_lt_of_le h (hle x (List.mem_cons_self _ _)))
          · exact hle y hy
      · have hfold : pickBestFold a (x :: l) = pickBestFold a l := by
          rw [pickBestFold, List.foldl_cons, if_neg h]; rfl
        obtain ⟨l1, l2, heq, hlt, hle⟩ := ih a
        match l1, heq with
        | [], heq =>
            have hba : pickBestFold a l = a := by
              have := congrArg (fun t => t.head?) heq
              simpa using this.symm
            refine ⟨[], x :: l, ?_, ?_, ?_⟩
            · rw [hfold, hba]; rfl
            · intro y hy; cases hy
            · intro y hy
              rw [hfold, hba]
              rcases List.mem_cons.mp hy with hy | hy
              · exact hy ▸ Nat.le_refl _
              · rcases List.mem_cons.mp hy with hy | hy
                · exact hy ▸ Nat.le_of_not_lt h
                · exact hba ▸ hle y (List.mem_cons_of_mem _ hy)
        | c :: l1c, heq =>
            have hca : c = a := by
              have := congrArg (fun t => t.head?) heq
              simpa using this.symm
            have hleq : l = l1c ++ pickBestFold a l :: l2 := by
              have := congrArg (fun t => t.tail) heq
              simpa using this
            refine ⟨a :: x :: l1c, l2, ?_, ?_, ?_⟩
            · rw [hfold, List.cons_append, List.cons_append, ← hleq]
            · intro y hy
              rw [hfold]
              have hstrict_a : a.description.length < (pickBestFold a l).description.length := by
                have := hlt c (List.mem_cons_self _ _)
                rwa [hca] at this
              rcases List.mem_cons.mp hy with hy | hy
              · exact hy ▸ hstrict_a
              · rcases List.mem_cons.mp hy with hy | hy
                · exact hy ▸ Nat.lt_of_le_of_lt (Nat.le_of_not_lt h) hstrict_a
                · exact hlt y (hca ▸ List.mem_cons_of_mem c hy)
            · intro y hy
              rw [hfold]
              rcases List.mem_cons.mp hy with hy | hy
              · exact hy ▸ hle a (List.mem_cons_self _ _)
              · rcases List.mem_cons.mp hy with hy | hy
                · exact hy ▸ Nat.le_trans (Nat.le_of_not_lt h) (hle a (List.mem_cons_self _ _))
                · exact hle y (List.mem_cons_of_mem _ hy)

theorem pickBest_mem (l : List SyncEvent) (b : SyncEvent) (h : pickBest l = some b) :
    b ∈ l := by
  match l, h with
  | e :: l, h =>
      rw [pickBest] at h
      injection h with h
      obtain ⟨l1, l2, heq, _, _⟩ := pickBestFold_split e l
      rw [h] at heq
      rw [heq]
      exact List.mem_append.mpr (Or.inr (List.mem_cons_self _ _))

theorem filterMap_reps_nil (K : List (Option Int × Option Int × String))
    (evs : List SyncEvent) (k : Option Int × Option Int × String) (hk : k ∉ K) :
    (K.filterMap
        (fun k2 => pickBest (evs.filter (fun e => decide (dedupKey e = k2))))).filter
      (fun e => decide (dedupKey e = k)) = [] := by
  induction K with
  | nil => rfl
  | cons k2 K ih =>
      have hne : k2 ≠ k := fun h => hk (h ▸ List.mem_cons_self _ _)
      have hnk : k ∉ K := fun h => hk (List.mem_cons_of_mem _ h)
      rw [List.filterMap_cons]
      cases hp : pickBest (evs.filter (fun e => decide (dedupKey e = k2))) with
      | none => exact ih hnk
      | some b =>
          have hbk : dedupKey b = k2 := by
            have := pickBest_mem _ _ hp
            have := List.mem_filter.mp this
            simpa using this.2
          rw [List.filter_cons]
          have : decide (dedupKey b = k) = false := by
            simp [hbk, hne]
          rw [this]
          simp only [Bool.false_eq_true, if_false]
          exact ih hnk

theorem filterMap_reps (K : List (Option Int × Option Int × String))
    (evs : List SyncEvent) (k : Option Int × Option Int × String) (b : SyncEvent)
    (hnd : K.Nodup) (hk : k ∈ K)
    (hb : pickBest (evs.filter (fun e => decide (dedupKey e = k))) = some b) :
    (K.filterMap
        (fun k2 => pickBest (evs.filter (fun e => decide (dedupKey e = k2))))).filter
      (fun e => decide (dedupKey e = k)) = [b] := by
  induction K with
  | nil => cases hk
  | cons k2 K ih =>
      rw [List.nodup_cons] at hnd
      rcases List.mem_cons.mp hk with hkk | hkk
      · subst hkk
        rw [List.filterMap_cons, hb, List.filter_cons]
        have hbk : dedupKey b = k := by
          have := pickBest_mem _ _ hb
          have := List.mem_filter.mp this
          simpa using this.2
        have : decide (dedupKey b = k) = true := by simp [hbk]
        rw [this]
        simp only [if_true]
        rw [filterMap_reps_nil K evs k hnd.1]
      · have hne : k2 ≠ k := fun h => hnd.1 (h ▸ hkk)
        rw [List.filterMap_cons]
        cases hp : pickBest (evs.filter (fun e => decide (dedupKey e = k2))) with
        | none => exact ih hnd.2 hkk
        | some b2 =>
            have hbk : dedupKey b2 = k2 := by
              have := pickBest_mem _ _ hp
              have := List.mem_filter.mp this
              simpa using this.2
            rw [List.filter_cons]
            have : decide (dedupKey b2 = k) = false := by simp [hbk, hne]
            rw [this]
            simp only [Bool.false_eq_true, if_false]
            exact ih hnd.2 hkk

/-- A VEVENT built by create_import_calendar, with the properties the
source adds. The created and last-modified stamps hold the clock reading
passed in as now; dates are epoch days. -/
structure ICalEvent where
  uid : String
  summary : String
  dtstart : Int
  dtend : Int
  description : String
  location : String
  created : Int
  lastModified : Int
  status : String
  categories : String
  transp : String
  pubclass : Option String
deriving DecidableEq

/-- A component of an emitted calendar: either an original component
added back verbatim (the already-processed branch and the manual-block
pass of the merge), or a freshly built VEVENT. -/
inductive OutEvent where
  | copied (c : RawVComponent)
  | built (e : ICalEvent)
deriving DecidableEq

/-- The loop body of create_import_calendar for one event: an already
processed event re-emits its original component (a missing component key
raises, is caught, and skips the event); otherwise an event whose start
and end convert to datetimes emits the reservation VEVENT plus the two
preparation-time VEVENTs, spanning start minus before-days to start and
end to end plus after-days; events that convert to no datetime emit
nothing. The before-days, after-days and clock reading are the module
configuration BUFFER_DAYS_BEFORE, BUFFER_DAYS_AFTER and datetime.now,
passed explicitly. -/
def stepImportEvent (bB bA now : Int) (ev : SyncEvent) : List OutEvent :=
  if ev.already_processed then
    match ev.component with
    | some c => [OutEvent.copied c]
    | none => []
  else
    match to_datetime ev.dtstart, to_datetime ev.dtend with
    | some s, some e =>
        [OutEvent.built
          { uid := ev.uid
            summary := "Reserva " ++ ev.source ++ " " ++ isoDateStr s ++ " a " ++ isoDateStr e
            dtstart := s
            dtend := e
            description := clean_description
              (ev.source ++ ". Check-in: " ++ isoDateStr s ++ ". Check-out: " ++ isoDateStr e)
            location := ev.location
            created := now
            lastModified := now
            status := "CONFIRMED"
            categories := "RESERVATION"
            transp := "TRANSPARENT"
            pubclass := none },
        OutEvent.built
          { uid := ev.uid ++ "-tp-before"
            summary := "TP Antes " ++ ev.source ++ " " ++ isoDateStr (s - bB) ++ " a " ++ isoDateStr s
            dtstart := s - bB
            dtend := s
            description := clean_description
              ("Tempo de Preparação. Associado a Reserva " ++ ev.source ++ " de "
                ++ isoDateStr s ++ " a " ++ isoDateStr e)
            location := ev.location
            created := now
            lastModified := now
            status := "CONFIRMED"
            categories := "PREP-TIME"
            transp := "TRANSPARENT"
            pubclass := some "PUBLIC" },
        OutEvent.built
          { uid := ev.uid ++ "-tp-after"
            summary := "TP Depois " ++ ev.source ++ " " ++ isoDateStr e ++ " a " ++ isoDateStr (e + bA)
            dtstart := e
            dtend := e + bA
            description := clean_description
              ("Tempo de Preparação. Associado a Reserva " ++ ev.source ++ " de "
                ++ isoDateStr s ++ " a " ++ isoDateStr e)
            location := ev.location
            created := now
            lastModified := now
            status := "CONFIRMED"
            categories := "PREP-TIME"
            transp := "TRANSPARENT"
            pubclass := some "PUBLIC" }]
    | _, _ => []

/-- Embedding of sync.create_import_calendar: fold the per-event loop
body, appending each emitted component to the calendar. -/
def create_import_calendar (events : List SyncEvent) (bB bA now : Int) : List OutEvent :=
  events.foldl (fun cal ev => cal ++ stepImportEvent bB bA now ev) []

/-- Erase the clock-derived properties of an emitted calendar, leaving
everything that depends only on the inputs. -/
def stripStamps (cal : List OutEvent) : List OutEvent :=
  cal.map (fun o =>
    match o with
    | .built e => .built { e with created := 0, lastModified := 0 }
    | .copied c => .copied c)

/-- Reading back an emitted component through the ICS parser and
extract_events: a built VEVENT returns as an event dict whose dates are
plain dates and whose CATEGORIES property is present, so it is marked
already processed. -/
def readBackEvent (source : String) : OutEvent → SyncEvent
  | .copied c =>
      { source := source, uid := c.uid, summary := c.summary, dtstart := c.dtstart
        dtend := c.dtend, description := c.description, location := c.location
        categories := c.categories, already_processed := c.categories.isSome
        component := some c }
  | .built e =>
      { source := source, uid := e.uid, summary := e.summary, dtstart := .pydate e.dtstart
        dtend := .pydate e.dtend, description := e.description, location := e.location
        categories := some e.categories, already_processed := true
        component := some
          { uid := e.uid, summary := e.summary, dtstart := .pydate e.dtstart
            dtend := .pydate e.dtend, description := e.description
            location := e.location, categories := some e.categories } }

/-- Whether a component of an emitted calendar is a VEVENT (the built
ones always are). -/
def outIsVevent : OutEvent → Bool
  | .copied c => c.isVevent
  | .built _ => true

/-- The UID property of an emitted component. -/
def outUidRaw : OutEvent → String
  | .copied c => c.uid
  | .built e => e.uid

/-- The CATEGORIES property of an emitted component, none when absent. -/
def outCategories : OutEvent → Option String
  | .copied c => c.categories
  | .built e => some e.categories

/-- The DTSTART property of an emitted component. -/
def outDtstart : OutEvent → DtObj
  | .copied c => c.dtstart
  | .built e => .pydate e.dtstart

/-- The DTEND property of an emitted component. -/
def outDtend : OutEvent → DtObj
  | .copied c => c.dtend
  | .built e => .pydate e.dtend

/-- Python str of a CATEGORIES property: the text of the property when
present and the string None when absent, as the merge builds it before
uppercasing. -/
def catStr : Option String → String
  | none => "None"
  | some s => s

/-- Embedding of sync.get_manual_blocks: the VEVENTs of the manual
calendar whose present CATEGORIES contain MANUAL-BLOCK (uppercased
substring test). Only the component of each block dict is consumed
downstream, so the block list holds the components. -/
def get_manual_blocks (manualCal : Option (List RawVComponent)) : List RawVComponent :=
  match manualCal with
  | none => []
  | some cal =>
      cal.filter (fun c =>
        c.isVevent && c.categories.isSome && hasSub (strUpper (catStr c.categories)) "MANUAL-BLOCK")

/-- Embedding of sync.get_manual_removes: the (start, end) date ranges of
the VEVENTs of the manual calendar whose present CATEGORIES contain
MANUAL-REMOVE and whose two dates both parse. Membership in the Python
set is list membership here. -/
def get_manual_removes (manualCal : Option (List RawVComponent)) : List (Int × Int) :=
  match manualCal with
  | none => []
  | some cal =>
      cal.foldl
        (fun acc c =>
          if c.isVevent && c.categories.isSome
              && hasSub (strUpper (catStr c.categories)) "MANUAL-REMOVE" then
            match to_date c.dtstart, to_date c.dtend with
            | some s, some e => acc ++ [(s, e)]
            | _, _ => acc
          else acc)
        []

/-- The loop body of merge_calendars for one import component:
RESERVATION components always pass; a PREP-TIME component is dropped
exactly when both its dates parse and the (start, end) pair is among the
manual remove ranges; everything else passes. -/
def mergeStep (removes : List (Int × Int)) (acc : List OutEvent) (comp : OutEvent) : List OutEvent :=
  if outIsVevent comp = false then acc
  else
    let cats := strUpper (catStr (outCategories comp))
    if hasSub cats "RESERVATION" then acc ++ [comp]
    else if hasSub cats "PREP-TIME" then
      match to_date (outDtstart comp), to_date (outDtend comp) with
      | some s, some e => if (s, e) ∈ removes then acc else acc ++ [comp]
      | _, _ => acc ++ [comp]
    else acc ++ [comp]

/-- Embedding of sync.merge_calendars: copy the import components through
the merge rules, then append every manual block component. -/
def merge_calendars (importCal : List OutEvent) (manualCal : Option (List RawVComponent)) :
    List OutEvent :=
  importCal.foldl (mergeStep (get_manual_removes manualCal)) []
    ++ (get_manual_blocks manualCal).map OutEvent.copied

/-- The collaborator outcomes one run of sync_local observes: the cached import
calendar (some exactly when import_calendar.ics exists and
parses), the three per-source download results (none on any
network or parse failure), the manual calendar, the success of the two
file writes, the configured buffer day counts, and the clock reading. -/
structure SyncEnv where
  cachedImport : Option (List RawVComponent)
  airbnb : Option (List RawVComponent)
  booking : Option (List RawVComponent)
  vrbo : Option (List RawVComponent)
  manualCal : Option (List RawVComponent)
  exportImportOk : Bool
  exportMasterOk : Bool
  bufBefore : Int
  bufAfter : Int
  now : Int

/-- Embedding of sync.fetch_all_calendars: without force, a usable cached import
calendar is returned alone; otherwise the three sources are
downloaded, and the run fails (none) exactly when every download
failed. -/
def fetch_all_calendars (env : SyncEnv) (force : Bool) :
    Option (List (String × Option (List RawVComponent))) :=
  match (if force then none else env.cachedImport) with
  | some cal => some [("IMPORT", some cal), ("AIRBNB", none), ("BOOKING", none), ("VRBO", none)]
  | none =>
      let cals : List (String × Option (List RawVComponent)) :=
        [("AIRBNB", env.airbnb), ("BOOKING", env.booking), ("VRBO", env.vrbo)]
      if cals.all (fun p => p.2.isNone) then none else some cals

/-- Embedding of sync.extract_events: walk every fetched calendar, keep
the VEVENTs, and build the event dicts; a component with a CATEGORIES
property is marked already processed. -/
def extract_events (calendars : List (String × Option (List RawVComponent))) : List SyncEvent :=
  calendars.foldl
    (fun acc p =>
      match p.2 with
      | none => acc
      | some cal =>
          acc ++ (cal.filter (fun c => c.isVevent)).map
            (fun c =>
              { source := p.1, uid := c.uid, summary := c.summary, dtstart := c.dtstart
                dtend := c.dtend, description := c.description, location := c.location
                categories := none, already_processed := c.categories.isSome
                component := some c }))
    []

/-- The result value of sync_local: status and message always, the counts
and timestamp only on success. -/
structure SyncResult where
  status : String
  message : String
  events_downloaded : Option Nat := none
  import_count : Option Nat := none
  manual_count : Option Nat := none
  master_count : Option Nat := none
  timestamp : Option Int := none
deriving DecidableEq

/-- Embedding of sync.sync_local: fetch, extract, deduplicate, emit the import
calendar, merge with the manual calendar, write both files, and
return a status value; every failure is returned as an error result (the
surrounding try turns any exception into one as well, so the embedding
is total). -/
def sync_local (env : SyncEnv) (force : Bool) : SyncResult :=
  match fetch_all_calendars env force with
  | none => { status := "error", message := "Nenhum calendário importado" }
  | some calendars =>
      let events := extract_events calendars
      if events.isEmpty then { status := "error", message := "Nenhum evento encontrado" }
      else
        let events2 := deduplicate_events events
        let importCal := create_import_calendar events2 env.bufBefore env.bufAfter env.now
        let masterCal := merge_calendars importCal env.manualCal
        if env.exportImportOk = false then
          { status := "error", message := "Falha ao gravar import_calendar.ics" }
        else if env.exportMasterOk = false then
          { status := "error", message := "Falha ao gravar master_calendar.ics" }
        else
          { status := "success"
            message := "✅ Sincronização concluída!"
            events_downloaded := some events2.length
            import_count := some (importCal.filter outIsVevent).length
            manual_count := some (match env.manualCal with
              | some mc => (mc.filter (fun c => c.isVevent)).length
              | none => 0)
            master_count := some (masterCal.filter outIsVevent).length
            timestamp := some env.now }

/-- An event dict as produced by the manual editor loaders: dates are
isoformat strings or None, categories is already a plain string. -/
structure EditorEvent where
  uid : String := ""
  summary : String := ""
  dtstart : Option String := none
  dtend : Option String := none
  description : String := ""
  categories : String := ""
deriving DecidableEq

/-- One cell of the editor calendar: category, the collected summaries,
and the display color. -/
structure DayCell where
  category : String
  descriptions : List String
  color : String
deriving DecidableEq

/-- The editor calendar: isoformat date string to cell, keyed here by
epoch day. -/
abbrev CalData : Type := List (Int × DayCell)

/-- The COLORMAP of manual_editor.py. -/
def colormap (k : String) : String :=
  if k = "available" then "4dd9ff"
  else if k = "reserved" then "ff0000"
  else if k = "prep-time" then "ffaa00"
  else if k = "manual-block" then "00ff00"
  else if k = "manual-remove" then "ffff00"
  else ""

/-- The cell every window date starts from. -/
def availCell : DayCell :=
  { category := "available", descriptions := [], color := colormap "available" }

/-- Initialization of process_calendar_data: every date from today
through today plus ninety days (inclusive) is available. -/
def initWindow (today : Int) : CalData :=
  (List.range 91).foldl (fun m (i : Nat) => mset m (today + (i : Int)) availCell) []

/-- Falsiness of an optional string field: None or the empty string. -/
def strFalsy : Option String → Bool
  | none => true
  | some s => s.isEmpty

/-- Parse of one editor date string: the text before a T separator is
parsed by datetime.fromisoformat, which on date-only text demands
exactly the zero-padded YYYY-MM-DD layout and validates the calendar
date; failure raises, which the per-event handler turns into skipping
the event. -/
def parseEditorDate (s : String) : Option Int :=
  let core := if s.data.contains 'T' then s.data.takeWhile (fun c => c ≠ 'T') else s.data
  match core.splitOn '-' with
  | [ys, ms, ds] =>
      if ys.length = 4 ∧ allDigits ys ∧ ms.length = 2 ∧ allDigits ms
          ∧ ds.length = 2 ∧ allDigits ds then
        mkValidDate (digitsToNat ys : Nat) (digitsToNat ms : Nat) (digitsToNat ds : Nat)
      else none
  | _ => none

/-- Rewrite of a cell to a new category with its COLORMAP color, the
shape of every category assignment in process_calendar_data. -/
def cellWithCat (cell : DayCell) (cat : String) : DayCell :=
  { cell with category := cat, color := colormap cat }

/-- Collect a summary into a cell unless already present, the
descriptions append of the import loop. -/
def cellAddSummary (su : String) (cell : DayCell) : DayCell :=
  if su ∈ cell.descriptions then cell
  else { cell with descriptions := cell.descriptions ++ [su] }

/-- The category rewrite the import loop applies to one cell (the value
the source leaves in the category and color fields before collecting the
summary): a RESERVATION category always writes reserved; a PREP-TIME
category writes prep-time only over an available cell. -/
def importCellCat (catU : String) (cell : DayCell) : DayCell :=
  if hasSub catU "RESERVATION" then cellWithCat cell "reserved"
  else if hasSub catU "PREP-TIME" then
    (if cell.category = "available" then cellWithCat cell "prep-time" else cell)
  else cell

/-- The import-loop body of process_calendar_data at one date: only
window dates are touched; the category rewrite is applied and the
summary collected once either way. -/
def applyImportDay (catU : String) (summary : String) (m : CalData) (d : Int) : CalData :=
  match mget m d with
  | none => m
  | some cell => mset m d (cellAddSummary summary (importCellCat catU cell))

/-- The manual-loop body of process_calendar_data at one date: a
MANUAL-BLOCK or MANUAL-REMOVE category overwrites the cell category
unconditionally; no summary is collected. -/
def applyManualDay (catU : String) (m : CalData) (d : Int) : CalData :=
  match mget m d with
  | none => m
  | some cell =>
      if hasSub catU "MANUAL-BLOCK" then
        mset m d { cell with category := "manual-block", color := colormap "manual-block" }
      else if hasSub catU "MANUAL-REMOVE" then
        mset m d { cell with category := "manual-remove", color := colormap "manual-remove" }
      else m

/-- Date-range resolution shared by both loops of process_calendar_data:
a falsy start skips the event; an unparsable start or end raises and so
skips the event; a falsy end makes the range empty (end set to start,
and the loop is strict on end). -/
def editorEventRange (ev : EditorEvent) : Option (Int × Int) :=
  if strFalsy ev.dtstart then none
  else
    match parseEditorDate (ev.dtstart.getD "") with
    | none => none
    | some ds =>
        if strFalsy ev.dtend then some (ds, ds)
        else
          match parseEditorDate (ev.dtend.getD "") with
          | none => none
          | some de => some (ds, de)

/-- The import-loop body of process_calendar_data for one event. -/
def importStep (m : CalData) (ev : EditorEvent) : CalData :=
  match editorEventRange ev with
  | none => m
  | some (ds, de) =>
      (datesBetween ds de).foldl (applyImportDay (strUpper ev.categories) ev.summary) m

/-- The manual-loop body of process_calendar_data for one event. -/
def manualStep (m : CalData) (ev : EditorEvent) : CalData :=
  match editorEventRange ev with
  | none => m
  | some (ds, de) =>
      (datesBetween ds de).foldl (applyManualDay (strUpper ev.categories)) m

/-- Embedding of ManualEditorHandler.process_calendar_data: initialize
the ninety-day window to available, fold the import events, then fold
the manual events. -/
def process_calendar_data (today : Int) (importEvents manualEvents : List EditorEvent) :
    CalData :=
  manualEvents.foldl manualStep (importEvents.foldl importStep (initWindow today))

theorem foldl_pres_mem {α β : Type} (P : α → Prop) (f : α → β → α) (l : List β) (a : α)
    (h : ∀ b ∈ l, ∀ x, P x → P (f x b)) (ha : P a) : P (l.foldl f a) := by
  induction l generalizing a with
  | nil => exact ha
  | cons b l ih =>
      exact ih _ (fun c hc x hx => h c (List.mem_cons_of_mem _ hc) x hx)
        (h b (List.mem_cons_self _ _) a ha)

theorem mem_datesBetween (s e d : Int) : d ∈ datesBetween s e ↔ s ≤ d ∧ d < e := by
  rw [datesBetween]
  constructor
  · intro h
    obtain ⟨i, hi, hd⟩ := List.mem_map.mp h
    rw [List.mem_range] at hi
    omega
  · intro h
    refine List.mem_map.mpr ⟨(d - s).toNat, ?_, ?_⟩
    · rw [List.mem_range]; omega
    · omega

theorem nodup_datesBetween (s e : Int) : (datesBetween s e).Nodup := by
  rw [datesBetween]
  refine (List.nodup_range _).map ?_
  intro a b h
  dsimp only at h
  omega

theorem mget_initWindowAux (today : Int) (n : Nat) (d : Int) :
    mget ((List.range n).foldl (fun m (i : Nat) => mset m (today + (i : Int)) availCell) []) d =
      if today ≤ d ∧ d < today + n then some availCell else none := by
  induction n with
  | zero =>
      rw [List.range_zero, List.foldl_nil]
      have hne : ¬(today ≤ d ∧ d < today + ((0 : Nat) : Int)) := by omega
      rw [if_neg hne]
      rfl
  | succ n ih =>
      rw [List.range_succ, List.foldl_append, List.foldl_cons, List.foldl_nil, mget_mset, ih]
      by_cases h1 : today + (n : Int) = d
      · rw [if_pos h1, if_pos (by omega)]
      · rw [if_neg h1]
        by_cases h2 : today ≤ d ∧ d < today + n
        · rw [if_pos h2, if_pos (by omega)]
        · rw [if_neg h2, if_neg (by omega)]

theorem mget_initWindow (today d : Int) :
    mget (initWindow today) d = if today ≤ d ∧ d ≤ today + 90 then some availCell else none := by
  rw [initWindow, mget_initWindowAux]
  by_cases h : today ≤ d ∧ d ≤ today + 90
  · rw [if_pos (by omega), if_pos h]
  · rw [if_neg (by omega), if_neg h]

theorem mget_applyImportDay_ne (catU su : String) (m : CalData) (d dd : Int) (h : d ≠ dd) :
    mget (applyImportDay catU su m d) dd = mget m dd := by
  rw [applyImportDay]
  cases mget m d with
  | none => rfl
  | some cell => simp only [mget_mset, if_neg h]

theorem isSome_applyImportDay (catU su : String) (m : CalData) (d dd : Int)
    (h : (mget m dd).isSome) : (mget (applyImportDay catU su m d) dd).isSome := by
  rw [applyImportDay]
  cases mget m d with
  | none => exact h
  | some cell =>
      rw [mget_mset]
      by_cases hd : d = dd
      · rw [if_pos hd]; rfl
      · rw [if_neg hd]; exact h

theorem applyImportDay_mget_none (catU su : String) (m : CalData) (d : Int)
    (hcell : mget m d = none) : applyImportDay catU su m d = m := by
  rw [applyImportDay, hcell]

theorem applyImportDay_mget_some (catU su : String) (m : CalData) (d : Int) (cell : DayCell)
    (hcell : mget m d = some cell) :
    applyImportDay catU su m d = mset m d (cellAddSummary su (importCellCat catU cell)) := by
  rw [applyImportDay, hcell]

theorem cellAddSummary_category (su : String) (cell : DayCell) :
    (cellAddSummary su cell).category = cell.category := by
  rw [cellAddSummary]
  split <;> rfl

theorem importCellCat_keeps_nonavailable (catU : String) (cell : DayCell)
    (hres : hasSub catU "RESERVATION" = false) (hna : cell.category ≠ "available") :
    (importCellCat catU cell).category = cell.category := by
  rw [importCellCat, hres]
  simp only [Bool.false_eq_true, if_false]
  split <;> simp [hna]

theorem importCellCat_keeps_reserved (catU : String) (cell : DayCell)
    (hcat : cell.category = "reserved") :
    (importCellCat catU cell).category = "reserved" := by
  rw [importCellCat]
  split
  · rfl
  · split
    · rw [if_neg (by rw [hcat]; decide)]
      exact hcat
    · exact hcat

theorem applyImportDay_keeps_nonavailable (catU su : String) (m : CalData) (d dd : Int)
    (hres : hasSub catU "RESERVATION" = false) (c : String)
    (hc : (mget m dd).map DayCell.category = some c) (hna : c ≠ "available") :
    (mget (applyImportDay catU su m d) dd).map DayCell.category = some c := by
  by_cases hd : d = dd
  · subst hd
    cases hcell : mget m d with
    | none => rw [hcell] at hc; cases hc
    | some cell =>
        rw [hcell] at hc
        have hcc : cell.category = c := by
          simpa using hc
        rw [applyImportDay_mget_some catU su m d cell hcell, mget_mset, if_pos rfl]
        have : (cellAddSummary su (importCellCat catU cell)).category = c := by
          rw [cellAddSummary_category,
            importCellCat_keeps_nonavailable catU cell hres (by rw [hcc]; exact hna), hcc]
        rw [← this]
        rfl
  · rw [mget_applyImportDay_ne _ _ _ _ _ hd]
    exact hc

theorem applyImportDay_keeps_reserved (catU su : String) (m : CalData) (d dd : Int)
    (hc : (mget m dd).map DayCell.category = some "reserved") :
    (mget (applyImportDay catU su m d) dd).map DayCell.category = some "reserved" := by
  by_cases hd : d = dd
  · subst hd
    cases hcell : mget m d with
    | none => rw [hcell] at hc; cases hc
    | some cell =>
        rw [hcell] at hc
        have hcc : cell.category = "reserved" := by
          simpa using hc
        rw [applyImportDay_mget_some catU su m d cell hcell, mget_mset, if_pos rfl]
        have : (cellAddSummary su (importCellCat catU cell)).category = "reserved" := by
          rw [cellAddSummary_category, importCellCat_keeps_reserved catU cell hcc]
        rw [← this]
        rfl
  · rw [mget_applyImportDay_ne _ _ _ _ _ hd]
    exact hc

theorem applyImportDay_sets_reserved (catU su : String) (m : CalData) (d : Int)
    (hres : hasSub catU "RESERVATION" = true) (cell : DayCell)
    (hcell : mget m d = some cell) :
    (mget (applyImportDay catU su m d) d).map DayCell.category = some "reserved" := by
  rw [applyImportDay_mget_some catU su m d cell hcell, mget_mset, if_pos rfl]
  have : (cellAddSummary su (importCellCat catU cell)).category = "reserved" := by
    rw [cellAddSummary_category, importCellCat, hres]
    rfl
  rw [← this]
  rfl

theorem applyImportDay_sets_preptime (catU su : String) (m : CalData) (d : Int)
    (hres : hasSub catU "RESERVATION" = false) (hprep : hasSub catU "PREP-TIME" = true)
    (cell : DayCell) (hcell : mget m d = some cell) (hav : cell.category = "available") :
    (mget (applyImportDay catU su m d) d).map DayCell.category = some "prep-time" := by
  rw [applyImportDay_mget_some catU su m d cell hcell, mget_mset, if_pos rfl]
  have : (cellAddSummary su (importCellCat catU cell)).category = "prep-time" := by
    rw [cellAddSummary_category, importCellCat, hres, hprep]
    simp only [Bool.false_eq_true, if_false, if_true]
    rw [if_pos hav]
    rfl
  rw [← this]
  rfl

theorem importStep_eq_none (m : CalData) (ev : EditorEvent)
    (h : editorEventRange ev = none) : importStep m ev = m := by
  rw [importStep, h]

theorem importStep_eq_some (m : CalData) (ev : EditorEvent) (ds de : Int)
    (h : editorEventRange ev = some (ds, de)) :
    importStep m ev
      = (datesBetween ds de).foldl (applyImportDay (strUpper ev.categories) ev.summary) m := by
  rw [importStep, h]

theorem importStep_keeps_reserved (m : CalData) (ev : EditorEvent) (dd : Int)
    (hc : (mget m dd).map DayCell.category = some "reserved") :
    (mget (importStep m ev) dd).map DayCell.category = some "reserved" := by
  cases h : editorEventRange ev with
  | none => rw [importStep_eq_none m ev h]; exact hc
  | some r =>
      rw [importStep_eq_some m ev r.1 r.2 (by rw [h])]
      exact foldl_pres_mem (fun x => (mget x dd).map DayCell.category = some "reserved") _ _ _
        (fun b _ x hx => applyImportDay_keeps_reserved _ _ _ _ _ hx) hc

theorem isSome_importStep (m : CalData) (ev : EditorEvent) (dd : Int)
    (h : (mget m dd).isSome) : (mget (importStep m ev) dd).isSome := by
  cases hr : editorEventRange ev with
  | none => rw [importStep_eq_none m ev hr]; exact h
  | some r =>
      rw [importStep_eq_some m ev r.1 r.2 (by rw [hr])]
      exact foldl_pres_mem (fun x => (mget x dd).isSome) _ _ _
        (fun b _ x hx => isSome_applyImportDay _ _ _ _ _ hx) h

theorem isSome_applyImportDay_mget (catU su : String) (m : CalData) (d dd : Int)
    (h : (mget m dd).isSome) : ∃ cell, mget (applyImportDay catU su m d) dd = some cell := by
  have := isSome_applyImportDay catU su m d dd h
  cases hx : mget (applyImportDay catU su m d) dd with
  | none => rw [hx] at this; cases this
  | some cell => exact ⟨cell, rfl⟩

theorem importStep_establishes_reserved (m : CalData) (ev : EditorEvent) (ds de d : Int)
    (hres : hasSub (strUpper ev.categories) "RESERVATION" = true)
    (hrange : editorEventRange ev = some (ds, de)) (h1 : ds ≤ d) (h2 : d < de)
    (hsome : (mget m d).isSome) :
    (mget (importStep m ev) d).map DayCell.category = some "reserved" := by
  rw [importStep_eq_some m ev ds de hrange]
  have hmem : d ∈ datesBetween ds de := (mem_datesBetween ds de d).mpr ⟨h1, h2⟩
  obtain ⟨D1, D2, heq⟩ := List.append_of_mem hmem
  have hnd := nodup_datesBetween ds de
  rw [heq] at hnd
  rw [List.nodup_append] at hnd
  have hD1 : d ∉ D1 := fun hin => (hnd.2.2 hin) (List.mem_cons_self _ _)
  rw [heq, List.foldl_append, List.foldl_cons]
  have hfirst : (mget (D1.foldl (applyImportDay (strUpper ev.categories) ev.summary) m) d).isSome := by
    refine foldl_pres_mem (fun x => (mget x d).isSome) _ _ _ ?_ hsome
    intro b _ x hx
    exact isSome_applyImportDay _ _ _ _ _ hx
  cases hcell : mget (D1.foldl (applyImportDay (strUpper ev.categories) ev.summary) m) d with
  | none => rw [hcell] at hfirst; cases hfirst
  | some cell =>
      have hset := applyImportDay_sets_reserved (strUpper ev.categories) ev.summary _ d hres cell hcell
      refine foldl_pres_mem (fun x => (mget x d).map DayCell.category = some "reserved") _ _ _ ?_ hset
      intro b _ x hx
      exact applyImportDay_keeps_reserved _ _ _ _ _ hx

theorem process_import_reserved (today : Int) (importEvents : List EditorEvent)
    (ev : EditorEvent) (ds de d : Int) (hmem : ev ∈ importEvents)
    (hres : hasSub (strUpper ev.categories) "RESERVATION" = true)
    (hrange : editorEventRange ev = some (ds, de)) (h1 : ds ≤ d) (h2 : d < de)
    (hw1 : today ≤ d) (hw2 : d ≤ today + 90) :
    (mget (process_calendar_data today importEvents []) d).map DayCell.category
      = some "reserved" := by
  rw [process_calendar_data, List.foldl_nil]
  obtain ⟨l1, l2, heq⟩ := List.append_of_mem hmem
  rw [heq, List.foldl_append, List.foldl_cons]
  have hinit : (mget (initWindow today) d).isSome := by
    rw [mget_initWindow, if_pos ⟨hw1, hw2⟩]; rfl
  have hl1 : (mget (l1.foldl importStep (initWindow today)) d).isSome := by
    refine foldl_pres_mem (fun x => (mget x d).isSome) _ _ _ ?_ hinit
    intro b _ x hx
    exact isSome_importStep _ _ _ hx
  have hstep := importStep_establishes_reserved _ ev ds de d hres hrange h1 h2 hl1
  refine foldl_pres_mem (fun x => (mget x d).map DayCell.category = some "reserved") _ _ _ ?_ hstep
  intro b _ x hx
  exact importStep_keeps_reserved _ _ _ hx

theorem convertStep_skip (m : NightMap) (ev : SyncEvent)
    (h : to_date ev.dtstart = none ∨ to_date ev.dtend = none) :
    convertStep m ev = m := by
  rw [convertStep]
  rcases h with h | h
  · rw [h]
  · rw [h]
    cases to_date ev.dtstart <;> rfl

theorem datesBetween_empty (s e : Int) (h : e ≤ s) : datesBetween s e = [] := by
  rw [datesBetween]
  have hz : (e - s).toNat = 0 := by omega
  rw [hz]
  rfl

theorem convertStep_degenerate (m : NightMap) (ev : SyncEvent) (s e : Int)
    (hs : to_date ev.dtstart = some s) (he : to_date ev.dtend = some e) (hle : e ≤ s) :
    convertStep m ev = m := by
  rw [convertStep, hs, he]
  show (datesBetween s e).foldl (fun m2 d => mset m2 d (eventNight ev)) m = m
  rw [datesBetween_empty s e hle]
  rfl

theorem stripStamps_append (a b : List OutEvent) :
    stripStamps (a ++ b) = stripStamps a ++ stripStamps b := by
  rw [stripStamps, stripStamps, stripStamps, List.map_append]

theorem stepImportEvent_strip (bB bA t1 t2 : Int) (ev : SyncEvent) :
    stripStamps (stepImportEvent bB bA t1 ev) = stripStamps (stepImportEvent bB bA t2 ev) := by
  rw [stepImportEvent, stepImportEvent]
  cases ha : ev.already_processed
  · simp only [Bool.false_eq_true, if_false]
    cases hs : to_datetime ev.dtstart <;> cases he : to_datetime ev.dtend <;> rfl
  · rfl

theorem create_import_strip_aux (evs : List SyncEvent) (bB bA t1 t2 : Int)
    (acc1 acc2 : List OutEvent) (hacc : stripStamps acc1 = stripStamps acc2) :
    stripStamps (evs.foldl (fun cal ev => cal ++ stepImportEvent bB bA t1 ev) acc1)
      = stripStamps (evs.foldl (fun cal ev => cal ++ stepImportEvent bB bA t2 ev) acc2) := by
  induction evs generalizing acc1 acc2 with
  | nil => exact hacc
  | cons ev evs ih =>
      rw [List.foldl_cons, List.foldl_cons]
      apply ih
      rw [stripStamps_append, stripStamps_append, hacc, stepImportEvent_strip bB bA t1 t2 ev]

/- Concrete fixtures used by the claim theorems, their witnesses and
counterexamples. -/

/-- A reservation night as the overlay sees it imported. -/
def fix1Night : NightEvent := { category := "RESERVATION", description := "r", uid := "u1" }

/-- A manual block night covering the same date. -/
def fix1Block : NightEvent := { category := "MANUAL-BLOCK", description := "b", uid := "u2" }

/-- A reservation event spanning days 0, 1, 2. -/
def fix2Res : SyncEvent :=
  { uid := "res-1", summary := "Reserva", dtstart := .pydate 0, dtend := .pydate 3
    categories := some "RESERVATION" }

/-- A buffer event spanning days 2, 3, overlapping the reservation at
day 2. -/
def fix2Prep : SyncEvent :=
  { uid := "res-2-tp-before", summary := "TP", dtstart := .pydate 2, dtend := .pydate 4
    categories := some "PREP-TIME" }

/-- A reserved cell for the day-level witness. -/
def fix2Cell : DayCell := { category := "reserved", descriptions := [], color := "ff0000" }

/-- A one-cell editor calendar holding the reserved cell at day 5. -/
def fix2Map : CalData := [(5, fix2Cell)]

/-- An editor reservation event spanning days 2, 3, 4. -/
def fix2Editor : EditorEvent :=
  { uid := "e1", summary := "Reserva X", dtstart := some "1970-01-03"
    dtend := some "1970-01-06", categories := "RESERVATION" }

/-- A plain source reservation fed to the emitter. -/
def fix3Event : SyncEvent :=
  { source := "AIRBNB", uid := "bk-9", summary := "Booked", dtstart := .pydate 10
    dtend := .pydate 12 }

/-- A manual remove night over an otherwise free date. -/
def fix4Remove : NightEvent := { category := "MANUAL-REMOVE", description := "Remove", uid := "mr-1" }

/-- A manual night map holding only the remove night at day 0. -/
def fix4Man : NightMap := [(0, fix4Remove)]

/-- An import prep-time night for the amended-claim witness. -/
def fix4Prep : NightEvent := { category := "PREP-TIME", description := "tp", uid := "tp-1" }

/-- A manual block directive from March 1 to March 3 (end exclusive). -/
def fix5Block : SyncEvent :=
  { uid := "mb-1", summary := "Bloqueio Manual", dtstart := .pydate (daysFromCivil 2026 3 1)
    dtend := .pydate (daysFromCivil 2026 3 3), categories := some "MANUAL-BLOCK" }

/-- A source reservation with an empty description. -/
def fix6Short : SyncEvent :=
  { source := "AIRBNB", uid := "a1", summary := "Guest A", dtstart := .pydate 100
    dtend := .pydate 105, description := "" }

/-- The same stay from a second source with a longer description. -/
def fix6Long : SyncEvent :=
  { source := "BOOKING", uid := "b1", summary := "Guest A", dtstart := .pydate 100
    dtend := .pydate 105, description := "Full itinerary text" }

/-- The January 10 to January 15 reservation of the buffer scenario. -/
def fix7Jan : SyncEvent :=
  { source := "AIRBNB", uid := "r-jan", summary := "Reserva Jan"
    dtstart := .pydate (daysFromCivil 2026 1 10), dtend := .pydate (daysFromCivil 2026 1 15) }

/-- A reservation used with zero buffer day counts. -/
def fix7Zero : SyncEvent :=
  { source := "VRBO", uid := "z1", summary := "Z", dtstart := .pydate 50, dtend := .pydate 52 }

/-- A reservation for the buffer-span witness. -/
def fix7W : SyncEvent :=
  { source := "BOOKING", uid := "w7", summary := "W", dtstart := .pydate 10, dtend := .pydate 12 }

/-- A run in which the cache is missing and every source download
fails. -/
def fix8Env : SyncEnv :=
  { cachedImport := none, airbnb := none, booking := none, vrbo := none, manualCal := none
    exportImportOk := true, exportMasterOk := true, bufBefore := 1, bufAfter := 1, now := 0 }

/-- An import night map holding one reservation night at day 3. -/
def fix9Imp : NightMap := [(3, { category := "PREP-TIME", description := "p", uid := "x" })]

/-- A manual night map that does not cover day 3. -/
def fix9Man : NightMap := [(7, { category := "MANUAL-BLOCK", description := "m", uid := "y" })]

/-- An event whose start date string names a thirteenth month. -/
def fix10Bad : SyncEvent :=
  { uid := "bad", summary := "Bad", dtstart := .pystr "2026-13-05", dtend := .pydate 3
    categories := some "RESERVATION" }

/-- C1: for every night map computed by the overlay step, a date whose imported
night carries the category RESERVATION (the specification name
is RESERVED) keeps its imported night unchanged in the final result,
whatever manual night (MANUAL-BLOCK, MANUAL-REMOVE or anything else)
covers that date. -/
theorem claim1_reserved_sovereign (imp man : NightMap) (d : Int) (ie : NightEvent)
    (h1 : mget imp d = some ie) (h2 : ie.category = "RESERVATION") :
    mget (apply_night_overlay_rules imp man) d = some ie := by
  cases h3 : mget man d with
  | none => rw [mget_overlay_none imp man d h3]; exact h1
  | some me =>
      rw [mget_overlay_some imp man d me h3, overlayResult, overlayWrites, h1]
      simp [h2]

/-- Witness for C1 at a concrete import map, with a manual block
covering the reserved date. -/
theorem claim1_witness :
    mget (apply_night_overlay_rules [(0, fix1Night)] [(0, fix1Block)]) 0 = some fix1Night :=
  claim1_reserved_sovereign [(0, fix1Night)] [(0, fix1Block)] 0 fix1Night (by decide) (by decide)

/-- Counterexample to C2 as stated: in convert_events_to_nights a later
PREP-TIME event overwrites a date inside the own interval of a reservation
(day 2 of the reservation spanning days 0 to 3), moving its category
away from RESERVATION even though the current category is not
AVAILABLE. -/
theorem claim2_counterexample :
    to_date fix2Res.dtstart = some 0 ∧ to_date fix2Res.dtend = some 3
      ∧ fix2Res.categories = some "RESERVATION"
      ∧ fix2Prep.categories = some "PREP-TIME"
      ∧ (0 : Int) ≤ 2 ∧ (2 : Int) < 3
      ∧ (mget (convert_events_to_nights [fix2Res, fix2Prep]) 2).map NightEvent.category
          = some "PREP-TIME" := by
  decide

/-- C2 amended: the only-if-AVAILABLE guard of the claim holds in the
manual editor fold (process_calendar_data), not in
convert_events_to_nights. First: an import event without RESERVATION in
its categories never changes the category of a cell that is not
available. Second: such an event with PREP-TIME in its categories sets
an available covered cell to prep-time. Third: a date of the window
covered by a RESERVATION import event ends reserved after the import
fold, whatever buffer events accompany it in either order. -/
theorem claim2_amended :
    (∀ (catU su : String) (m : CalData) (d dd : Int) (c : String),
      hasSub catU "RESERVATION" = false →
      (mget m dd).map DayCell.category = some c → c ≠ "available" →
      (mget (applyImportDay catU su m d) dd).map DayCell.category = some c)
    ∧ (∀ (catU su : String) (m : CalData) (d : Int) (cell : DayCell),
      hasSub catU "RESERVATION" = false → hasSub catU "PREP-TIME" = true →
      mget m d = some cell → cell.category = "available" →
      (mget (applyImportDay catU su m d) d).map DayCell.category = some "prep-time")
    ∧ (∀ (today : Int) (importEvents : List EditorEvent) (ev : EditorEvent) (ds de d : Int),
      ev ∈ importEvents →
      hasSub (strUpper ev.categories) "RESERVATION" = true →
      editorEventRange ev = some (ds, de) → ds ≤ d → d < de →
      today ≤ d → d ≤ today + 90 →
      (mget (process_calendar_data today importEvents []) d).map DayCell.category
        = some "reserved") :=
  ⟨fun catU su m d dd c h1 h2 h3 => applyImportDay_keeps_nonavailable catU su m d dd h1 c h2 h3,
   fun catU su m d cell h1 h2 h3 h4 => applyImportDay_sets_preptime catU su m d h1 h2 cell h3 h4,
   fun today ie ev ds de d h1 h2 h3 h4 h5 h6 h7 =>
     process_import_reserved today ie ev ds de d h1 h2 h3 h4 h5 h6 h7⟩

/-- Witness for the amended C2 at concrete inputs: a PREP-TIME day write
over a reserved cell keeps it reserved, and a concrete editor
reservation makes its covered window date reserved. -/
theorem claim2_witness :
    (mget (applyImportDay "PREP-TIME" "TP" fix2Map 5) 5).map DayCell.category = some "reserved"
      ∧ (mget (process_calendar_data 0 [fix2Editor] []) 3).map DayCell.category
          = some "reserved" := by
  constructor
  · exact claim2_amended.1 "PREP-TIME" "TP" fix2Map 5 5 "reserved" (by decide) (by decide) (by decide)
  · exact claim2_amended.2.2 0 [fix2Editor] fix2Editor 2 5 3 (by decide) (by decide) (by decide)
      (by decide) (by decide) (by decide) (by decide)

/-- Counterexample to C3 as stated: the emitter stamps the clock reading
into CREATED and LAST-MODIFIED, so the same input events emitted at two
clock readings give different calendars, and the output is not a
function of the source and directive inputs alone. -/
theorem claim3_counterexample :
    create_import_calendar [fix3Event] 1 1 0 ≠ create_import_calendar [fix3Event] 1 1 1 := by
  decide

/-- C3 amended: the emitted calendar is a deterministic function of the
input events, the buffer day counts and the clock reading; apart from
the CREATED and LAST-MODIFIED stamps it does not depend on the clock at
all. -/
theorem claim3_amended (evs : List SyncEvent) (bB bA t1 t2 : Int) :
    stripStamps (create_import_calendar evs bB bA t1)
      = stripStamps (create_import_calendar evs bB bA t2) := by
  rw [create_import_calendar, create_import_calendar]
  exact create_import_strip_aux evs bB bA t1 t2 [] [] rfl

/-- Counterexample to C4 as stated: a MANUAL-REMOVE directive covering a
date absent from the import map (an AVAILABLE date, which the claim says
is left unchanged) writes the manual remove night there instead of
leaving it available. -/
theorem claim4_counterexample :
    mget ([] : NightMap) 0 = none
      ∧ mget (apply_night_overlay_rules [] fix4Man) 0 = some fix4Remove
      ∧ fix4Remove.category ≠ "AVAILABLE" := by
  decide

/-- C4 amended: a MANUAL-REMOVE night never changes a date whose import
category is RESERVATION; on every other date it covers it overwrites
the night with the manual remove event itself (category MANUAL-REMOVE)
rather than resetting only PREP-TIME dates to AVAILABLE. -/
theorem claim4_amended (imp man : NightMap) (d : Int) (me : NightEvent)
    (h1 : mget man d = some me) (h2 : me.category = "MANUAL-REMOVE") :
    mget (apply_night_overlay_rules imp man) d =
      if (mget imp d).map NightEvent.category = some "RESERVATION" then mget imp d
      else some me := by
  rw [mget_overlay_some imp man d me h1, overlayResult, overlayWrites, h2]
  by_cases hres : (mget imp d).map NightEvent.category = some "RESERVATION"
  · simp [hres]
  · simp [hres]

/-- Witness for the amended C4: a manual remove over an import prep-time
night at day 0 replaces it with the manual remove night. -/
theorem claim4_witness :
    mget (apply_night_overlay_rules [(0, fix4Prep)] fix4Man) 0 =
      if (mget [(0, fix4Prep)] 0).map NightEvent.category = some "RESERVATION"
      then mget [(0, fix4Prep)] 0 else some fix4Remove :=
  claim4_amended [(0, fix4Prep)] fix4Man 0 fix4Remove (by decide) (by decide)

/-- C5: a MANUAL-BLOCK night writes exactly when the import night is
absent or has category AVAILABLE, and otherwise (RESERVATION or
PREP-TIME imports) leaves the import night in place; and the
end-exclusive scenario: a block directive from March 1 to March 3 over
an empty import calendar blocks March 1 and March 2 and leaves March 3
uncovered, that is available. -/
theorem claim5_block :
    (∀ (imp man : NightMap) (d : Int) (me : NightEvent),
      mget man d = some me → me.category = "MANUAL-BLOCK" →
      mget (apply_night_overlay_rules imp man) d =
        if mget imp d = none ∨ (mget imp d).map NightEvent.category = some "AVAILABLE"
        then some me else mget imp d)
    ∧ ((mget (apply_night_overlay_rules [] (convert_events_to_nights [fix5Block]))
          (daysFromCivil 2026 3 1)).map NightEvent.category = some "MANUAL-BLOCK"
      ∧ (mget (apply_night_overlay_rules [] (convert_events_to_nights [fix5Block]))
          (daysFromCivil 2026 3 2)).map NightEvent.category = some "MANUAL-BLOCK"
      ∧ mget (apply_night_overlay_rules [] (convert_events_to_nights [fix5Block]))
          (daysFromCivil 2026 3 3) = none) := by
  constructor
  · intro imp man d me h1 h2
    rw [mget_overlay_some imp man d me h1, overlayResult, overlayWrites, h2]
    cases hie : mget imp d with
    | none => simp +decide
    | some ie =>
        by_cases hav : ie.category = "AVAILABLE"
        · simp +decide [hav]
        · by_cases hres2 : ie.category = "RESERVATION"
          · simp +decide [hres2]
          · simp +decide [hav, hres2]
  · decide

/-- Witness for C5 at a concrete empty import and block night. -/
theorem claim5_witness :
    mget (apply_night_overlay_rules [] [(4, fix1Block)]) 4 =
      if mget ([] : NightMap) 4 = none
          ∨ (mget ([] : NightMap) 4).map NightEvent.category = some "AVAILABLE"
      then some fix1Block else mget ([] : NightMap) 4 :=
  claim5_block.1 [] [(4, fix1Block)] 4 fix1Block (by decide) (by decide)

/-- C6: deduplication keeps exactly one representative per occurring
key, the representative belongs to the group, no earlier group member
has a description as long as its own, and no group member has a longer
one; the concrete two-event scenario keeps the longer description. -/
theorem claim6_dedup :
    (∀ (evs : List SyncEvent) (k : Option Int × Option Int × String),
      (∃ e ∈ evs, dedupKey e = k) →
      ∃ b l1 l2,
        (deduplicate_events evs).filter (fun e => decide (dedupKey e = k)) = [b]
        ∧ evs.filter (fun e => decide (dedupKey e = k)) = l1 ++ b :: l2
        ∧ (∀ x ∈ l1, x.description.length < b.description.length)
        ∧ ∀ x ∈ evs.filter (fun e => decide (dedupKey e = k)),
            x.description.length ≤ b.description.length)
    ∧ deduplicate_events [fix6Short, fix6Long] = [fix6Long]
    ∧ fix6Short.description.length < fix6Long.description.length := by
  refine ⟨?_, by decide, by decide⟩
  intro evs k hex
  obtain ⟨e0, he0, hk0⟩ := hex
  have hne : evs.isEmpty = false := by
    cases evs
    · cases he0
    · rfl
  have hmemf : e0 ∈ evs.filter (fun e => decide (dedupKey e = k)) :=
    List.mem_filter.mpr ⟨he0, by simp [hk0]⟩
  cases hg : evs.filter (fun e => decide (dedupKey e = k)) with
  | nil => rw [hg] at hmemf; cases hmemf
  | cons g0 gr =>
      have hpick : pickBest (evs.filter (fun e => decide (dedupKey e = k)))
          = some (pickBestFold g0 gr) := by
        rw [hg, pickBest]
      obtain ⟨l1, l2, hsplit, hlt, hle⟩ := pickBestFold_split g0 gr
      refine ⟨pickBestFold g0 gr, l1, l2, ?_, ?_, hlt, ?_⟩
      · rw [deduplicate_events]
        rw [hne]
        simp only [Bool.false_eq_true, if_false]
        exact filterMap_reps _ evs k _ (groupKeysAux_nodup evs []).1
          ((mem_groupKeysAux evs [] k).mpr ⟨by simp, e0, he0, hk0⟩) hpick
      · exact hsplit
      · exact hle

/-- Witness for C6 at a concrete one-event list. -/
theorem claim6_witness :
    ∃ b l1 l2,
      (deduplicate_events [fix6Short]).filter
          (fun e => decide (dedupKey e = dedupKey fix6Short)) = [b]
      ∧ [fix6Short].filter (fun e => decide (dedupKey e = dedupKey fix6Short)) = l1 ++ b :: l2
      ∧ (∀ x ∈ l1, x.description.length < b.description.length)
      ∧ ∀ x ∈ [fix6Short].filter (fun e => decide (dedupKey e = dedupKey fix6Short)),
          x.description.length ≤ b.description.length :=
  claim6_dedup.1 [fix6Short] (dedupKey fix6Short) ⟨fix6Short, List.mem_cons_self _ _, rfl⟩

/-- Counterexample to C7 as stated: with both buffer day counts zero the
emitter still emits two PREP-TIME records (with empty spans), not
zero. -/
theorem claim7_counterexample :
    ((create_import_calendar [fix7Zero] 0 0 0).filter
      (fun o => decide (outCategories o = some "PREP-TIME"))).length = 2 := by
  decide

/-- C7 amended: for every emitted reservation the emitter always emits
exactly one RESERVATION record spanning the stay plus two PREP-TIME
records, BEFORE spanning start minus before-days to start and AFTER
spanning end to end plus after-days (a zero day count gives an empty
span rather than no record); and the January scenario: with both day
counts one, the reservation January 10 to January 15 resolves to
prep-time on January 9, reserved on January 10 through 14, prep-time on
January 15, and no night outside. -/
theorem claim7_amended :
    (∀ (ev : SyncEvent) (bB bA now s e : Int),
      ev.already_processed = false →
      to_datetime ev.dtstart = some s → to_datetime ev.dtend = some e →
      ∃ r b a, create_import_calendar [ev] bB bA now
          = [OutEvent.built r, OutEvent.built b, OutEvent.built a]
        ∧ r.categories = "RESERVATION" ∧ r.dtstart = s ∧ r.dtend = e
        ∧ b.categories = "PREP-TIME" ∧ b.dtstart = s - bB ∧ b.dtend = s
        ∧ a.categories = "PREP-TIME" ∧ a.dtstart = e ∧ a.dtend = e + bA)
    ∧ (let nights := convert_events_to_nights
        ((create_import_calendar [fix7Jan] 1 1 7).map (readBackEvent "IMPORT"))
      (mget nights (daysFromCivil 2026 1 9)).map NightEvent.category = some "PREP-TIME"
      ∧ (mget nights (daysFromCivil 2026 1 10)).map NightEvent.category = some "RESERVATION"
      ∧ (mget nights (daysFromCivil 2026 1 11)).map NightEvent.category = some "RESERVATION"
      ∧ (mget nights (daysFromCivil 2026 1 12)).map NightEvent.category = some "RESERVATION"
      ∧ (mget nights (daysFromCivil 2026 1 13)).map NightEvent.category = some "RESERVATION"
      ∧ (mget nights (daysFromCivil 2026 1 14)).map NightEvent.category = some "RESERVATION"
      ∧ (mget nights (daysFromCivil 2026 1 15)).map NightEvent.category = some "PREP-TIME"
      ∧ mget nights (daysFromCivil 2026 1 8) = none
      ∧ mget nights (daysFromCivil 2026 1 16) = none) := by
  constructor
  · intro ev bB bA now s e ha hs he
    rw [create_import_calendar, List.foldl_cons, List.foldl_nil, List.nil_append,
      stepImportEvent, ha]
    simp only [Bool.false_eq_true, if_false]
    rw [hs, he]
    exact ⟨_, _, _, rfl, rfl, rfl, rfl, rfl, rfl, rfl, rfl, rfl, rfl⟩
  · decide

/-- Witness for the amended C7 at a concrete reservation with buffer day
counts two and three. -/
theorem claim7_witness :
    ∃ r b a, create_import_calendar [fix7W] 2 3 9
        = [OutEvent.built r, OutEvent.built b, OutEvent.built a]
      ∧ r.categories = "RESERVATION" ∧ r.dtstart = 10 ∧ r.dtend = 12
      ∧ b.categories = "PREP-TIME" ∧ b.dtstart = 10 - 2 ∧ b.dtend = 10
      ∧ a.categories = "PREP-TIME" ∧ a.dtstart = 12 ∧ a.dtend = 12 + 3 :=
  claim7_amended.1 fix7W 2 3 9 10 12 rfl rfl rfl

/-- C8: when no usable cached import exists and every source download
fails, sync_local returns the error result value with its message, not
an empty calendar; the embedding is a total function, matching the
source where every exception is caught and returned as an error
value. -/
theorem claim8_error (env : SyncEnv) (force : Bool)
    (h1 : env.cachedImport = none) (h2 : env.airbnb = none)
    (h3 : env.booking = none) (h4 : env.vrbo = none) :
    sync_local env force = { status := "error", message := "Nenhum calendário importado" } := by
  rw [sync_local, fetch_all_calendars, h1, h2, h3, h4]
  cases force <;> rfl

/-- Witness for C8 at a concrete all-failed environment. -/
theorem claim8_witness :
    sync_local fix8Env false = { status := "error", message := "Nenhum calendário importado" } :=
  claim8_error fix8Env false rfl rfl rfl rfl

/-- C9: the overlay never removes or relocates nights: a date present in
the import map is present in the result, and a date not covered by the
manual map keeps exactly its import value. -/
theorem claim9_frame (imp man : NightMap) (d : Int) :
    (∀ ie, mget imp d = some ie →
      ∃ w, mget (apply_night_overlay_rules imp man) d = some w)
    ∧ (mget man d = none → mget (apply_night_overlay_rules imp man) d = mget imp d) := by
  constructor
  · intro ie hie
    cases h3 : mget man d with
    | none =>
        rw [mget_overlay_none imp man d h3]
        exact ⟨ie, hie⟩
    | some me =>
        rw [mget_overlay_some imp man d me h3, overlayResult]
        split
        · exact ⟨me, rfl⟩
        · exact ⟨ie, hie⟩
  · exact mget_overlay_none imp man d

/-- Witness for C9 at concrete maps: day 3 is imported and not manually
covered, so it is present and unchanged. -/
theorem claim9_witness :
    (∃ w, mget (apply_night_overlay_rules fix9Imp fix9Man) 3 = some w)
      ∧ mget (apply_night_overlay_rules fix9Imp fix9Man) 3 = mget fix9Imp 3 :=
  ⟨(claim9_frame fix9Imp fix9Man 3).1 { category := "PREP-TIME", description := "p", uid := "x" }
      (by decide),
    (claim9_frame fix9Imp fix9Man 3).2 (by decide)⟩

/-- C10: conversion to nights is total over malformed records: an event
whose start or end converts to no date is skipped, contributing nothing;
an event with end at most start contributes no nights; and a thirteenth
month string, like a missing value, converts to no date. -/
theorem claim10_skip :
    (∀ (l1 l2 : List SyncEvent) (ev : SyncEvent),
      to_date ev.dtstart = none ∨ to_date ev.dtend = none →
      convert_events_to_nights (l1 ++ ev :: l2) = convert_events_to_nights (l1 ++ l2))
    ∧ (∀ (l1 l2 : List SyncEvent) (ev : SyncEvent) (s e : Int),
      to_date ev.dtstart = some s → to_date ev.dtend = some e → e ≤ s →
      convert_events_to_nights (l1 ++ ev :: l2) = convert_events_to_nights (l1 ++ l2))
    ∧ to_date (.pystr "2026-13-05") = none ∧ to_date .pynone = none := by
  refine ⟨?_, ?_, by decide, rfl⟩
  · intro l1 l2 ev h
    rw [convert_events_to_nights, convert_events_to_nights, List.foldl_append,
      List.foldl_append, List.foldl_cons, convertStep_skip _ _ h]
  · intro l1 l2 ev s e hs he hle
    rw [convert_events_to_nights, convert_events_to_nights, List.foldl_append,
      List.foldl_append, List.foldl_cons, convertStep_degenerate _ _ s e hs he hle]

/-- Witness for C10: the malformed event contributes nothing to the
night map of a concrete list. -/
theorem claim10_witness :
    convert_events_to_nights ([] ++ fix10Bad :: []) = convert_events_to_nights ([] ++ []) :=
  claim10_skip.1 [] [] fix10Bad (Or.inl (by decide))

end RCS
